import Mathlib

/-!
Verification development for the host-db repository: a shallow embedding of
the discrepancy detector (`scripts/prep.ts`), the checksum parse/serialize
pair (`lib/checksums.ts`, `scripts/repair-checksums.ts`), the checksum
repair engine (`scripts/repair-checksums.ts`), the download pipeline
(`packages/core/src/download.ts`), the cache path resolution
(`packages/core/src/cache.ts` and the generated platform installer), and
platform detection (`packages/core/src/platform.ts`).

JavaScript strings are embedded as `List Char`; JavaScript objects used as
string-keyed records are embedded as association lists in insertion order,
with first-match lookup (JS objects have unique keys, so first-match and
last-match coincide wherever a real record is embedded).
-/

namespace HostDb

/-- JS strings are modelled as lists of characters. -/
abbrev Str := List Char

/-- Embed a Lean string literal as a character list. -/
def str (s : String) : Str := s.data

/-- First-match association-list lookup, embedding `obj[key]` / `Map.get(key)`
on records with unique keys. -/
def lookupKV (k : Str) : List (Str × Str) → Option Str
  | [] => none
  | (k', v) :: rest => if k' = k then some v else lookupKV k rest

/-- Record assignment `obj[k] = v` / `map.set(k, v)`: overwrite in place if the
key is present, otherwise append. -/
def recInsert (m : List (Str × Str)) (k v : Str) : List (Str × Str) :=
  match m with
  | [] => [(k, v)]
  | (k', v') :: rest => if k' = k then (k', v) :: rest else (k', v') :: recInsert rest k v

/-- JS string comparison `a < b || a == b` over code units, used by the default
`Array.sort()` comparator on (ASCII) strings. -/
def strLe : Str → Str → Bool
  | [], _ => true
  | _ :: _, [] => false
  | a :: as, b :: bs =>
    if a.toNat < b.toNat then true
    else if b.toNat < a.toNat then false
    else strLe as bs

/-- Insert into a sorted list (helper for the embedding of `Array.sort()`). -/
def insertSorted (x : Str) : List Str → List Str
  | [] => [x]
  | y :: ys => if strLe x y then x :: y :: ys else y :: insertSorted x ys

/-- Embedding of `keys.sort()`: any sorting algorithm agrees on lists of
distinct keys; we use insertion sort. -/
def sortStrs : List Str → List Str
  | [] => []
  | x :: xs => insertSorted x (sortStrs xs)

/-- JS `haystack.includes(needle)`: substring containment. -/
def strContains (haystack needle : Str) : Bool :=
  match haystack with
  | [] => needle = []
  | _ :: rest => needle.isPrefixOf haystack || strContains rest needle

/-- JS `s.endsWith(suffix)`. -/
def strEndsWith (s suf : Str) : Bool := List.isSuffixOf suf s

/-- `path.join(a, b)` on already-normalized segments. -/
def nodeJoin (a b : Str) : Str := a ++ '/' :: b

/-- JS `content.split('\n')`: split at every newline, keeping empty segments. -/
def splitNl : Str → List Str
  | [] => [[]]
  | c :: rest =>
    if c = '\n' then [] :: splitNl rest
    else
      match splitNl rest with
      | [] => [[c]]
      | s :: ss => (c :: s) :: ss

/-- JS `lines.join('\n')`. -/
def joinNl : List Str → Str
  | [] => []
  | [l] => l
  | l :: ls => l ++ '\n' :: joinNl ls

/-- JS `s.split(':')`. -/
def splitColon : Str → List Str
  | [] => [[]]
  | c :: rest =>
    if c = ':' then [] :: splitColon rest
    else
      match splitColon rest with
      | [] => [[c]]
      | s :: ss => (c :: s) :: ss

/-- Embed `${n}` interpolation of a number. -/
def natToStr (n : Nat) : Str := (Nat.repr n).data

/-! ## Discrepancy detector (`scripts/prep.ts`) -/

/-- One entry of `databases.json` (type `DatabaseEntry` in `prep.ts`). -/
structure DatabaseEntry where
  displayName : Str
  status : Str
  versions : List (Str × Bool)
  platforms : List (Str × Bool)
deriving DecidableEq

/-- `databases.json` (type `DatabasesJson` in `prep.ts`). -/
structure DatabasesJson where
  databases : List (Str × DatabaseEntry)
deriving DecidableEq

/-- One released platform artifact (`prep.ts` type `ReleaseVersion.platforms` values). -/
structure PlatformArtifact where
  url : Str
  sha256 : Str
  size : Nat
deriving DecidableEq

/-- One released version (type `ReleaseVersion` in `prep.ts`). -/
structure ReleaseVersion where
  releaseTag : Str
  releasedAt : Str
  platforms : List (Str × PlatformArtifact)
deriving DecidableEq

/-- `releases.json` (type `ReleasesJson` in `prep.ts`). -/
structure ReleasesJson where
  databases : List (Str × List (Str × ReleaseVersion))
deriving DecidableEq

/-- The six discrepancy kinds (`Discrepancy.type` in `prep.ts`). -/
inductive DiscrepancyType where
  | missingRelease
  | orphanedRelease
  | missingVersion
  | orphanedVersion
  | missingPlatform
  | orphanedPlatform
deriving DecidableEq

/-- Type `Discrepancy` in `prep.ts`. -/
structure Discrepancy where
  type : DiscrepancyType
  database : Str
  version : Option Str := none
  platform : Option Str := none
  message : Str
deriving DecidableEq

/-- Generic first-match association lookup (`obj[key]` on records). -/
def lookupBy {β : Type} (k : Str) : List (Str × β) → Option β
  | [] => none
  | (k', v) :: rest => if k' = k then some v else lookupBy k rest

/-- JS truthiness of `m[k]` for a boolean-valued record: `true` iff the key is
present and mapped to `true`. -/
def enabledIn (m : List (Str × Bool)) (k : Str) : Bool :=
  (lookupBy k m).getD false

/-- The desired-side body of `findDiscrepancies` for one active database entry
(`prep.ts` lines 138-184). -/
def desiredDbDiscrepancies (releases : ReleasesJson) (dbId : Str)
    (dbEntry : DatabaseEntry) : List Discrepancy :=
  let enabledVersions := (dbEntry.versions.filter (·.2)).map Prod.fst
  let enabledPlatforms := (dbEntry.platforms.filter (·.2)).map Prod.fst
  match lookupBy dbId releases.databases with
  | none =>
    if enabledVersions.length > 0 then
      [{ type := .missingRelease, database := dbId,
         message := str "Database \x27" ++ dbId ++ str "\x27 has " ++
           natToStr enabledVersions.length ++ str " enabled version(s) but no releases" }]
    else []
  | some dbReleases =>
    enabledVersions.flatMap fun version =>
      match lookupBy version dbReleases with
      | none =>
        [{ type := .missingVersion, database := dbId, version := some version,
           message := str "Version \x27" ++ version ++ str "\x27 is enabled but not released" }]
      | some rel =>
        let releasedPlatforms := rel.platforms.map Prod.fst
        (enabledPlatforms.filter (fun p => ¬ releasedPlatforms.contains p)).map fun platform =>
          { type := .missingPlatform, database := dbId, version := some version,
            platform := some platform,
            message := str "Platform \x27" ++ platform ++ str "\x27 is enabled but not released for " ++
              dbId ++ str " " ++ version }

/-- The actual-side body of `findDiscrepancies` for one entry of
`releases.json` (`prep.ts` lines 187-223). -/
def actualDbDiscrepancies (databases : DatabasesJson) (dbId : Str)
    (versions : List (Str × ReleaseVersion)) : List Discrepancy :=
  match lookupBy dbId databases.databases with
  | none =>
    [{ type := .orphanedRelease, database := dbId,
       message := str "Database \x27" ++ dbId ++
         str "\x27 is in releases.json but not in databases.json" }]
  | some dbEntry =>
    versions.flatMap fun (version, release) =>
      if ¬ enabledIn dbEntry.versions version then
        [{ type := .orphanedVersion, database := dbId, version := some version,
           message := str "Version \x27" ++ version ++
             str "\x27 is released but not in databases.json" }]
      else
        ((release.platforms.map Prod.fst).filter
            (fun p => ¬ enabledIn dbEntry.platforms p)).map fun platform =>
          { type := .orphanedPlatform, database := dbId, version := some version,
            platform := some platform,
            message := str "Platform \x27" ++ platform ++
              str "\x27 is released but not enabled in databases.json" }

/-- `findDiscrepancies` from `prep.ts` (lines 119-226), after both state files
have been read and parsed.  The desired-side pass iterates the ids of active
databases and looks each id back up, exactly as the source does. -/
def findDiscrepancies (databases : DatabasesJson) (releases : ReleasesJson) :
    List Discrepancy :=
  let activeDatabases :=
    ((databases.databases.filter fun p =>
        p.2.status = str "in-progress" ∨ p.2.status = str "completed").map Prod.fst)
  let desiredSide := activeDatabases.flatMap fun dbId =>
    match lookupBy dbId databases.databases with
    | none => []
    | some dbEntry => desiredDbDiscrepancies releases dbId dbEntry
  let actualSide := releases.databases.flatMap fun p =>
    actualDbDiscrepancies databases p.1 p.2
  desiredSide ++ actualSide

/-- Spec-side desired pass, written from the specification's words: in
desired's iteration order, each active database entry contributes its
missing-release / missing-version / missing-platform discrepancies. -/
def specDesiredPass (databases : DatabasesJson) (releases : ReleasesJson) :
    List Discrepancy :=
  (databases.databases.filter fun p =>
      p.2.status = str "in-progress" ∨ p.2.status = str "completed").flatMap
    fun p => desiredDbDiscrepancies releases p.1 p.2

/-- Spec-side actual pass, written from the specification's words: in actual's
iteration order, each released database contributes its orphaned-release /
orphaned-version / orphaned-platform discrepancies. -/
def specActualPass (databases : DatabasesJson) (releases : ReleasesJson) :
    List Discrepancy :=
  releases.databases.flatMap fun p => actualDbDiscrepancies databases p.1 p.2

/-- Parse-error outcome of running the detector over raw state files. -/
inductive PrepError where
  | parse
deriving DecidableEq

/-- The file-handling wrapper of `findDiscrepancies` (`prep.ts` lines 119-131):
`existsSync` on both paths (a missing file yields the empty list), then
`JSON.parse` on each file in order (a parse failure throws).  A state file is
`none` when absent; the parsing of file contents is abstracted by the two
parser parameters, which return `none` exactly when `JSON.parse` (or the
shape check) would throw. -/
def runFindDiscrepancies (parseDb : Str → Option DatabasesJson)
    (parseRel : Str → Option ReleasesJson)
    (dbFile relFile : Option Str) : Except PrepError (List Discrepancy) :=
  match dbFile, relFile with
  | none, _ => .ok []
  | _, none => .ok []
  | some dbText, some relText =>
    match parseDb dbText with
    | none => .error .parse
    | some databases =>
      match parseRel relText with
      | none => .error .parse
      | some releases => .ok (findDiscrepancies databases releases)

/-! ## Checksum manifest parsing and serialization
(`lib/checksums.ts` `parseChecksums`, `scripts/repair-checksums.ts`
`uploadChecksums`) -/

/-- The character class `[a-f0-9]` of the manifest-line regex. -/
def isHexLowerChar (c : Char) : Bool :=
  ('a' ≤ c ∧ c ≤ 'f') ∨ ('0' ≤ c ∧ c ≤ '9')

/-- A 64-character lowercase-hex digest. -/
def is64HexLower (s : Str) : Bool := s.length = 64 ∧ s.all isHexLowerChar

/-- The JavaScript regex class `\\s`. -/
def isJsWs (c : Char) : Bool :=
  c = ' ' ∨ c = '\t' ∨ c = '\n' ∨ c = '\r' ∨ c = '\x0b' ∨ c = '\x0c' ∨
  c = '\u00a0' ∨ c = '\u1680' ∨ ('\u2000' ≤ c ∧ c ≤ '\u200a') ∨
  c = '\u2028' ∨ c = '\u2029' ∨ c = '\u202f' ∨ c = '\u205f' ∨
  c = '\u3000' ∨ c = '\ufeff'

/-- The JavaScript regex `.` (without the `s` flag): any character except a
line terminator. -/
def isDotChar (c : Char) : Bool :=
  ¬ (c = '\n' ∨ c = '\r' ∨ c = '\u2028' ∨ c = '\u2029')

/-- Match `\*?(.+)$` against the part of a manifest line following the
whitespace run, preferring to consume the `*` (greedy `?`); returns the
captured filename. -/
def matchStarRest (rest : Str) : Option Str :=
  match rest with
  | [] => none
  | c :: t =>
    if c = '*' ∧ t ≠ [] ∧ t.all isDotChar then some t
    else if (c :: t).all isDotChar then some (c :: t) else none

/-- Match `\s+\*?(.+)$` with backtracking: the whitespace run is consumed
greedily (longest first), at least one character; returns the captured
filename. -/
def matchWsThenRest : Str → Option Str
  | [] => none
  | c :: rest =>
    if isJsWs c then
      match matchWsThenRest rest with
      | some f => some f
      | none => matchStarRest rest
    else none

/-- Match one line against `/^([a-f0-9]{64})\s+\*?(.+)$/` (the pattern of both
`parseChecksums` in `lib/checksums.ts` and `fetchChecksums` in
`scripts/repair-checksums.ts`); returns (filename, digest) captures. -/
def matchManifestLine (line : Str) : Option (Str × Str) :=
  let hex := line.take 64
  if hex.length = 64 ∧ hex.all isHexLowerChar then
    (matchWsThenRest (line.drop 64)).map fun f => (f, hex)
  else none

/-- `parseChecksums` from `lib/checksums.ts` (lines 18-30): split the content
on newlines, and record `checksums[filename] = hash` for every line matching
the manifest pattern. -/
def parseChecksums (content : Str) : List (Str × Str) :=
  (splitNl content).foldl
    (fun acc line =>
      match matchManifestLine line with
      | some (f, h) => recInsert acc f h
      | none => acc)
    []

/-- The manifest text built by `uploadChecksums` in `scripts/repair-checksums.ts`
(lines 174-180): one `<digest>␠␠<filename>` line per entry, keys sorted,
joined with newlines, one trailing newline. -/
def uploadChecksumsContent (checksums : List (Str × Str)) : Str :=
  let sortedKeys := sortStrs (checksums.map Prod.fst)
  let lines := sortedKeys.map fun filename =>
    (lookupKV filename checksums).getD [] ++ ' ' :: ' ' :: filename
  joinNl lines ++ ['\n']

/-! ## Checksum repair engine (`scripts/repair-checksums.ts`) -/

/-- The five recognized platform identifiers (`PLATFORMS` in
`scripts/repair-checksums.ts`, lines 23-29). -/
def PLATFORMS : List Str :=
  [str "linux-x64", str "linux-arm64", str "darwin-x64", str "darwin-arm64",
   str "win32-x64"]

/-- `extractPlatform` from `scripts/repair-checksums.ts` (lines 76-83): the
first platform identifier contained in the filename, else `null`. -/
def extractPlatform (filename : Str) : Option Str :=
  PLATFORMS.find? fun platform => strContains filename platform

/-- Type `GitHubAsset` in `scripts/repair-checksums.ts`. -/
structure GitHubAsset where
  name : Str
  browser_download_url : Str
  size : Nat
deriving DecidableEq

/-- Type `GitHubRelease` in `scripts/repair-checksums.ts`. -/
structure GitHubRelease where
  tag_name : Str
  published_at : Str
  assets : List GitHubAsset
deriving DecidableEq

/-- The binary assets of a release (`main`, lines 244-246): every asset other
than `checksums.txt` whose name contains a platform identifier. -/
def binaryAssetsOf (release : GitHubRelease) : List GitHubAsset :=
  release.assets.filter fun a =>
    a.name ≠ str "checksums.txt" ∧ (extractPlatform a.name).isSome

/-- The assets whose checksums are missing from the existing manifest
(`main`, line 256). -/
def missingAssetsOf (existingChecksums : List (Str × Str))
    (release : GitHubRelease) : List GitHubAsset :=
  (binaryAssetsOf release).filter fun a => lookupKV a.name existingChecksums = none

/-- The updated checksum map built by the repair loop (`main`, lines 272-283):
start from a copy of the existing map and add one entry per missing asset
whose digest computation succeeds.  `digestOf` abstracts
`computeRemoteSha256`: it returns `none` when the streaming fetch would
throw (that asset is logged and skipped). -/
def repairUpdatedChecksums (digestOf : Str → Option Str)
    (existingChecksums : List (Str × Str)) (release : GitHubRelease) :
    List (Str × Str) :=
  (missingAssetsOf existingChecksums release).foldl
    (fun acc a =>
      match digestOf a.browser_download_url with
      | some sha256 => recInsert acc a.name sha256
      | none => acc)
    existingChecksums

/-- One iteration of the repair loop of `main` in `scripts/repair-checksums.ts`
(lines 240-289, non-dry-run): returns the manifest text uploaded for this
release, or `none` when the release is skipped (no binary assets, or no
missing checksums — the idempotent no-op path). -/
def repairRelease (digestOf : Str → Option Str)
    (existingChecksums : List (Str × Str)) (release : GitHubRelease) :
    Option Str :=
  if binaryAssetsOf release = [] then none
  else if missingAssetsOf existingChecksums release = [] then none
  else some (uploadChecksumsContent
    (repairUpdatedChecksums digestOf existingChecksums release))

/-! ## Download pipeline (`packages/core/src/download.ts`) -/

/-- The options record of `downloadFile`.  `checksumAlgorithm` is `none` when
the caller omits it (the source then defaults to `'sha256'`). -/
structure DownloadOptions where
  url : Str
  expectedChecksum : Option Str := none
  checksumAlgorithm : Option Str := none
deriving DecidableEq

/-- The observable behaviour of the remote stream: the chunks delivered by
`reader.read()`, and an optional transport error raised mid-stream after
those chunks. -/
structure StreamInput where
  responseOk : Bool := true
  chunks : List (List Nat)
  streamError : Option Str := none
deriving DecidableEq

/-- The distinct failure exits of `downloadFile`. -/
inductive DownloadError where
  | httpError (url : Str)
  | transport (e : Str)
  | checksumMismatch (expected actual : Str)
deriving DecidableEq

/-- The result record of `downloadFile`. -/
structure DownloadResult where
  size : Nat
  checksum : Str
deriving DecidableEq

/-- The final state of one `downloadFile` call: the outcome, and the file
present at the destination path afterwards (`none` when no file is left). -/
structure DownloadOutcome where
  result : Except DownloadError DownloadResult
  fileAt : Option (List Nat)

/-- The verification value extracted from `expectedChecksum`
(`download.ts` lines 84-88): the segment after the first `:` when the string
contains one (`expectedChecksum.split(':')[1]`), else the string itself. -/
def stripAlgorithmTag (expectedChecksum : Str) : Str :=
  if expectedChecksum.contains ':' then (splitColon expectedChecksum).getD 1 []
  else expectedChecksum

/-- `downloadFile` from `packages/core/src/download.ts` (lines 22-103).
`hash algo bytes` abstracts `createHash(algo) / hash.digest('hex')` as a pure
digest oracle.  Deleting a file (`unlink`) is modelled as always effective;
the stream is consumed chunk by chunk into the destination file while the
digest is computed, and on a mid-stream transport error the partial file is
removed and the error rethrown.  After a complete stream, a supplied
expected checksum is compared against the computed digest; a mismatch
removes the file and fails carrying both values. -/
def downloadFile (hash : Str → List Nat → Str) (options : DownloadOptions)
    (input : StreamInput) : DownloadOutcome :=
  let checksumAlgorithm := options.checksumAlgorithm.getD (str "sha256")
  if ¬ input.responseOk then
    { result := .error (.httpError options.url), fileAt := none }
  else
    let content := input.chunks.flatten
    match input.streamError with
    | some e => { result := .error (.transport e), fileAt := none }
    | none =>
      let actualChecksum := hash checksumAlgorithm content
      let okResult : DownloadResult :=
        { size := content.length,
          checksum := checksumAlgorithm ++ ':' :: actualChecksum }
      match options.expectedChecksum with
      | some ec =>
        let expected := stripAlgorithmTag ec
        if actualChecksum ≠ expected then
          { result := .error (.checksumMismatch expected actualChecksum),
            fileAt := none }
        else
          { result := .ok okResult, fileAt := some content }
      | none =>
        { result := .ok okResult, fileAt := some content }

/-! ## Cache layout (`packages/core/src/cache.ts`) and the generated
platform installer (install.js, emitted by `scripts/generate-packages.ts`) -/

/-- The ambient process state read by `getCacheDir`: `process.env` and
`process.platform`, plus `os.homedir()`. -/
structure ProcessEnv where
  env : Str → Option Str
  platform : Str
  home : Str

/-- `getCacheDir` from `packages/core/src/cache.ts` (lines 10-34): explicit
option, then `HOST_DB_CACHE_DIR`, then `XDG_CACHE_HOME` on non-Windows, then
the platform default. -/
def getCacheDir (p : ProcessEnv) (cacheDir : Option Str := none) : Str :=
  match cacheDir with
  | some d => d
  | none =>
    match p.env (str "HOST_DB_CACHE_DIR") with
    | some d => d
    | none =>
      if p.platform ≠ str "win32" ∧ (p.env (str "XDG_CACHE_HOME")).isSome then
        nodeJoin ((p.env (str "XDG_CACHE_HOME")).getD []) (str "host-db")
      else if p.platform = str "win32" then
        nodeJoin (nodeJoin ((p.env (str "LOCALAPPDATA")).getD
          (nodeJoin (nodeJoin p.home (str "AppData")) (str "Local")))
          (str "host-db")) (str "cache")
      else nodeJoin (nodeJoin p.home (str ".cache")) (str "host-db")

/-- The cache key (database, version, platform). -/
structure CacheKey where
  database : Str
  version : Str
  platform : Str
deriving DecidableEq

/-- `getArchiveCachePath` from `packages/core/src/cache.ts` (lines 36-45):
`<cacheRoot>/<database>/<version>/<platform>.tar.gz`, unconditionally with
the `.tar.gz` extension. -/
def getArchiveCachePath (p : ProcessEnv) (key : CacheKey)
    (cacheDir : Option Str := none) : Str :=
  nodeJoin (nodeJoin (nodeJoin (getCacheDir p cacheDir) key.database)
    key.version) (key.platform ++ str ".tar.gz")

/-- `getCachedArchive` from `packages/core/src/cache.ts` (lines 47-61): the
archive path when a file exists there (`access` succeeds), else `null`.
`fs` maps an absolute path to the bytes of the file stored there, if any. -/
def getCachedArchive (fs : Str → Option (List Nat)) (p : ProcessEnv)
    (key : CacheKey) (cacheDir : Option Str := none) : Option Str :=
  let archivePath := getArchiveCachePath p key cacheDir
  if (fs archivePath).isSome then some archivePath else none

/-- JS `path.replace(/\.(tar\.gz|zip)$/, ext)`: replace the leftmost suffix
equal to `.tar.gz` or `.zip` by `ext` (the match must extend to the end of
the string); the string is returned unchanged when nothing matches. -/
def replaceArchiveExt (s : Str) (ext : Str) : Str :=
  match s with
  | [] => []
  | c :: rest =>
    if c :: rest = str ".tar.gz" ∨ c :: rest = str ".zip" then ext
    else c :: replaceArchiveExt rest ext

/-- The configuration block of a generated installer (`CONFIG` in install.js). -/
structure InstallerConfig where
  database : Str
  version : Str
  platform : Str
  downloadUrl : Str
  checksum : Str
deriving DecidableEq

/-- The `.zip` / `.tar.gz` archive extension the installer infers from the
download URL (install.js: `CONFIG.downloadUrl.endsWith('.zip') ? '.zip' :
'.tar.gz'`). -/
def installerArchiveExt (cfg : InstallerConfig) : Str :=
  if strEndsWith cfg.downloadUrl (str ".zip") then str ".zip" else str ".tar.gz"

/-- The canonical destination path the installer downloads to when no cached
archive is found (install.js:
`join(cacheDir, database, version, platform + archiveExt)`). -/
def installerDownloadPath (p : ProcessEnv) (cfg : InstallerConfig) : Str :=
  nodeJoin (nodeJoin (nodeJoin (getCacheDir p) cfg.database) cfg.version)
    (cfg.platform ++ installerArchiveExt cfg)

/-- The archive-acquisition step of the generated installer (install.js `main`,
lines 79-110): look up the cached archive, adjust its extension to the one
implied by the download URL, and reuse it when a file exists there;
otherwise download to the canonical path.  Returns the archive path used and
whether a download was performed.  No digest of an existing cached file is
ever computed or compared. -/
def installerAcquireArchive (fs : Str → Option (List Nat)) (p : ProcessEnv)
    (cfg : InstallerConfig) : Str × Bool :=
  let archiveExt := installerArchiveExt cfg
  let cached := getCachedArchive fs p
    { database := cfg.database, version := cfg.version, platform := cfg.platform }
  let adjusted := cached.map fun path =>
    if ¬ strEndsWith path archiveExt then replaceArchiveExt path archiveExt
    else path
  match adjusted with
  | some path =>
    if (fs path).isSome then (path, false)
    else (installerDownloadPath p cfg, true)
  | none => (installerDownloadPath p cfg, true)

/-- The checksum placeholder of an unpopulated installer config; the installer
passes `expectedChecksum` to `downloadFile` only when `CONFIG.checksum`
differs from it, i.e. a digest is known for the artifact. -/
def CHECKSUM_PLACEHOLDER : Str := str "sha256:PLACEHOLDER"

/-- Whether the installer knows a digest for its artifact. -/
def installerDigestKnown (cfg : InstallerConfig) : Bool :=
  cfg.checksum ≠ CHECKSUM_PLACEHOLDER

/-! ## Platform detection (`packages/core/src/platform.ts`) -/

/-- `detectPlatform` from `packages/core/src/platform.ts` (lines 15-27), over
the host tuple (`process.platform`, `process.arch`); the fall-through throw
is the `PlatformUnsupported` failure. -/
def detectPlatform (os arch : Str) : Except Str Str :=
  if os = str "linux" ∧ arch = str "x64" then .ok (str "linux-x64")
  else if os = str "linux" ∧ arch = str "arm64" then .ok (str "linux-arm64")
  else if os = str "darwin" ∧ arch = str "arm64" then .ok (str "darwin-arm64")
  else if os = str "win32" ∧ arch = str "x64" then .ok (str "win32-x64")
  else .error (str "Unsupported platform: " ++ os ++ str "-" ++ arch ++
    str ". Supported platforms: linux-x64, linux-arm64, darwin-arm64, win32-x64")

/-- `SUPPORTED_PLATFORMS` from `packages/core/src/platform.ts` (lines 52-57). -/
def SUPPORTED_PLATFORMS : List Str :=
  [str "linux-x64", str "linux-arm64", str "darwin-arm64", str "win32-x64"]

/-! ## Helper lemmas -/

theorem lookupBy_eq_some_of_mem {β : Type} {l : List (Str × β)} {k : Str} {v : β}
    (hnd : (l.map Prod.fst).Nodup) (hmem : (k, v) ∈ l) : lookupBy k l = some v := by
  induction l with
  | nil => cases hmem
  | cons hd tl ih =>
    obtain ⟨k', v'⟩ := hd
    simp only [List.map_cons, List.nodup_cons] at hnd
    rcases List.mem_cons.mp hmem with heq | htl
    · cases heq
      simp [lookupBy]
    · have hne : k' ≠ k := by
        intro h
        exact hnd.1 (h ▸ (List.mem_map.mpr ⟨(k, v), htl, rfl⟩))
      simp only [lookupBy, if_neg hne]
      exact ih hnd.2 htl

theorem strLe_total (a b : Str) : strLe a b = true ∨ strLe b a = true := by
  induction a generalizing b with
  | nil => left; rfl
  | cons x xs ih =>
    cases b with
    | nil => right; rfl
    | cons y ys =>
      rcases Nat.lt_trichotomy x.toNat y.toNat with hlt | heq | hgt
      · left; simp [strLe, hlt]
      · rcases ih ys with h | h
        · left; simp [strLe, heq, h]
        · right; simp [strLe, heq, h]
      · right; simp [strLe, hgt]

theorem strLe_trans {a b c : Str} (hab : strLe a b = true) (hbc : strLe b c = true) :
    strLe a c = true := by
  induction a generalizing b c with
  | nil => rfl
  | cons x xs ih =>
    cases b with
    | nil => simp [strLe] at hab
    | cons y ys =>
      cases c with
      | nil => simp [strLe] at hbc
      | cons z zs =>
        simp only [strLe] at hab hbc ⊢
        split_ifs at hab hbc ⊢ with h1 h2 h3 h4 h5 h6 <;>
          first
          | rfl
          | omega
          | (exact ih hab hbc)

theorem mem_insertSorted {x a : Str} {l : List Str} :
    a ∈ insertSorted x l ↔ a = x ∨ a ∈ l := by
  induction l with
  | nil => simp [insertSorted]
  | cons y ys ih =>
    simp only [insertSorted]
    split_ifs with h
    · simp [List.mem_cons]
    · simp only [List.mem_cons, ih]
      tauto

theorem insertSorted_perm (x : Str) (l : List Str) :
    List.Perm (insertSorted x l) (x :: l) := by
  induction l with
  | nil => rfl
  | cons y ys ih =>
    simp only [insertSorted]
    split_ifs with h
    · rfl
    · exact (List.Perm.cons y ih).trans (List.Perm.swap x y ys)

theorem sortStrs_perm (l : List Str) : List.Perm (sortStrs l) l := by
  induction l with
  | nil => rfl
  | cons x xs ih =>
    exact (insertSorted_perm x (sortStrs xs)).trans (List.Perm.cons x ih)

theorem insertSorted_pairwise {x : Str} {l : List Str}
    (hl : l.Pairwise (fun a b => strLe a b = true)) :
    (insertSorted x l).Pairwise (fun a b => strLe a b = true) := by
  induction l with
  | nil => simp [insertSorted]
  | cons y ys ih =>
    rcases List.pairwise_cons.mp hl with ⟨hy, hys⟩
    simp only [insertSorted]
    split_ifs with h
    · refine List.pairwise_cons.mpr ⟨?_, hl⟩
      intro b hb
      rcases List.mem_cons.mp hb with hb | hb
      · exact hb ▸ h
      · exact strLe_trans h (hy b hb)
    · refine List.pairwise_cons.mpr ⟨?_, ih hys⟩
      intro b hb
      rcases mem_insertSorted.mp hb with hb | hb
      · subst hb
        rcases strLe_total b y with h' | h'
        · exact absurd h' h
        · exact h'
      · exact hy b hb

theorem sortStrs_pairwise (l : List Str) :
    (sortStrs l).Pairwise (fun a b => strLe a b = true) := by
  induction l with
  | nil => exact List.Pairwise.nil
  | cons x xs ih => exact insertSorted_pairwise ih

theorem lookupKV_recInsert (m : List (Str × Str)) (f v k : Str) :
    lookupKV k (recInsert m f v) = if f = k then some v else lookupKV k m := by
  induction m with
  | nil => simp [recInsert, lookupKV]
  | cons hd tl ih =>
    obtain ⟨k', v'⟩ := hd
    simp only [recInsert]
    by_cases hkf : k' = f
    · simp only [if_pos hkf]
      subst hkf
      by_cases hkk : k' = k <;> simp [lookupKV, hkk]
    · simp only [if_neg hkf]
      by_cases hkk : k' = k
      · subst hkk
        have hfk : ¬ f = k' := fun h => hkf h.symm
        simp [lookupKV, hfk]
      · simp [lookupKV, hkk, ih]

theorem lookupKV_eq_none_iff (m : List (Str × Str)) (k : Str) :
    lookupKV k m = none ↔ k ∉ m.map Prod.fst := by
  induction m with
  | nil => simp [lookupKV]
  | cons hd tl ih =>
    obtain ⟨k', v'⟩ := hd
    by_cases h : k' = k
    · subst h
      simp [lookupKV]
    · simp [lookupKV, h, ih, Ne.symm h]

theorem lookupKV_foldl_recInsert (ps : List (Str × Str))
    (hnd : (ps.map Prod.fst).Nodup) (acc : List (Str × Str)) (k : Str) :
    lookupKV k (ps.foldl (fun a p => recInsert a p.1 p.2) acc) =
      ((lookupKV k ps).rec (lookupKV k acc) fun v => some v) := by
  induction ps generalizing acc with
  | nil => simp [lookupKV]
  | cons hd tl ih =>
    obtain ⟨f, v⟩ := hd
    simp only [List.map_cons, List.nodup_cons] at hnd
    simp only [List.foldl_cons]
    rw [ih hnd.2]
    by_cases hfk : f = k
    · subst hfk
      have htl : lookupKV f tl = none :=
        (lookupKV_eq_none_iff tl f).mpr hnd.1
      simp [htl, lookupKV, lookupKV_recInsert]
    · simp [lookupKV, Ne.symm hfk, lookupKV_recInsert, hfk]

theorem lookupKV_map_of_mem (ks : List Str) (g : Str → Str) (k : Str) :
    lookupKV k (ks.map fun f => (f, g f)) =
      if k ∈ ks then some (g k) else none := by
  induction ks with
  | nil => simp [lookupKV]
  | cons f fs ih =>
    by_cases h : f = k
    · subst h
      simp [lookupKV]
    · simp [lookupKV, h, ih, Ne.symm h]

theorem lookupKV_isSome_iff (m : List (Str × Str)) (k : Str) :
    (lookupKV k m).isSome = true ↔ k ∈ m.map Prod.fst := by
  rcases h : lookupKV k m with _ | v
  · simpa [h] using (lookupKV_eq_none_iff m k).mp h
  · have : ¬ lookupKV k m = none := by simp [h]
    simpa [h] using (fun hk => this ((lookupKV_eq_none_iff m k).mpr hk))

theorem strEndsWith_tarGz_zip (pre : Str) :
    strEndsWith (pre ++ str ".tar.gz") (str ".zip") = false := by
  have h : str ".zip" = ['.', 'z', 'i', 'p'] := rfl
  have h2 : str ".tar.gz" = ['.', 't', 'a', 'r', '.', 'g', 'z'] := rfl
  simp [strEndsWith, List.isSuffixOf, h, h2, List.reverse_append, List.isPrefixOf]

theorem strEndsWith_tarGz_self (pre : Str) :
    strEndsWith (pre ++ str ".tar.gz") (str ".tar.gz") = true := by
  simp [strEndsWith, List.isSuffixOf, List.reverse_append, List.isPrefixOf]

theorem replaceArchiveExt_tarGz (pre ext : Str) :
    replaceArchiveExt (pre ++ str ".tar.gz") ext = pre ++ ext := by
  induction pre with
  | nil => rfl
  | cons c rest ih =>
    simp only [List.cons_append, replaceArchiveExt, List.append_eq]
    rw [if_neg, ih]
    rintro (h | h) <;> exact absurd (congrArg List.length h) (by simp [str])

theorem splitColon_of_not_mem {s : Str} (h : ':' ∉ s) : splitColon s = [s] := by
  induction s with
  | nil => rfl
  | cons c rest ih =>
    have hc : ¬ c = ':' := fun he => h (he ▸ List.mem_cons_self c rest)
    have hr := ih fun hm => h (List.mem_cons_of_mem c hm)
    simp [splitColon, hc, hr]

theorem splitColon_tagged (alg rest : Str) (h : ':' ∉ alg) :
    splitColon (alg ++ ':' :: rest) = alg :: splitColon rest := by
  induction alg with
  | nil => simp [splitColon]
  | cons c cs ih =>
    have hc : ¬ c = ':' := fun he => h (he ▸ List.mem_cons_self c cs)
    have hr := ih fun hm => h (List.mem_cons_of_mem c hm)
    simp [splitColon, hc, hr]

theorem stripAlgorithmTag_tagged (alg hex : Str) (ha : ':' ∉ alg) (hh : ':' ∉ hex) :
    stripAlgorithmTag (alg ++ ':' :: hex) = hex := by
  have hco : (alg ++ ':' :: hex).contains ':' = true := by simp
  rw [stripAlgorithmTag, if_pos hco, splitColon_tagged alg hex ha,
    splitColon_of_not_mem hh]
  rfl

theorem getArchiveCachePath_decomp (p : ProcessEnv) (key : CacheKey)
    (cd : Option Str) :
    getArchiveCachePath p key cd =
      nodeJoin (nodeJoin (nodeJoin (getCacheDir p cd) key.database) key.version)
        key.platform ++ str ".tar.gz" := by
  simp [getArchiveCachePath, nodeJoin]

theorem installer_adjusted_path (p : ProcessEnv) (cfg : InstallerConfig) :
    (if ¬ strEndsWith
          (getArchiveCachePath p
            { database := cfg.database, version := cfg.version,
              platform := cfg.platform })
          (installerArchiveExt cfg) = true then
      replaceArchiveExt
        (getArchiveCachePath p
          { database := cfg.database, version := cfg.version,
            platform := cfg.platform })
        (installerArchiveExt cfg)
    else
      getArchiveCachePath p
        { database := cfg.database, version := cfg.version,
          platform := cfg.platform }) = installerDownloadPath p cfg := by
  rw [getArchiveCachePath_decomp]
  by_cases hz : strEndsWith cfg.downloadUrl (str ".zip") = true
  · have he : installerArchiveExt cfg = str ".zip" := by
      simp [installerArchiveExt, hz]
    rw [he, strEndsWith_tarGz_zip, replaceArchiveExt_tarGz]
    · simp [installerDownloadPath, he, nodeJoin]
  · have he : installerArchiveExt cfg = str ".tar.gz" := by
      simp [installerArchiveExt, hz]
    rw [he, strEndsWith_tarGz_self]
    simp [installerDownloadPath, he, nodeJoin]

/-! ## Scenario inputs from the specification -/

/-- Scenario A desired state: mysql in progress, one enabled version, two
enabled platforms. -/
def scenarioADesired : DatabasesJson :=
  { databases := [(str "mysql",
      { displayName := str "MySQL", status := str "in-progress",
        versions := [(str "8.4", true)],
        platforms := [(str "linux-x64", true), (str "win32-x64", true)] })] }

/-- Scenario A actual state: no releases at all. -/
def scenarioAActual : ReleasesJson := { databases := [] }

/-! ## Claim theorems -/

/-- C1: `findDiscrepancies` is exactly the two-pass diff of the specification:
a desired-side pass in desired's iteration order over active databases
(missing-release when the database is absent from actual and has an enabled
version, else missing-version per enabled version absent from actual with
its platform checks skipped, else missing-platform per enabled platform
absent from the actual release), followed by an actual-side pass in actual's
iteration order (orphaned-release when the database is absent from desired,
else orphaned-version per released version not enabled, else
orphaned-platform per released platform not enabled); and on Scenario A's
inputs the output is exactly one missing-release for mysql. -/
theorem findDiscrepancies_two_pass :
    (∀ (d : DatabasesJson) (a : ReleasesJson), (d.databases.map Prod.fst).Nodup →
        findDiscrepancies d a = specDesiredPass d a ++ specActualPass d a) ∧
      findDiscrepancies scenarioADesired scenarioAActual =
        [{ type := .missingRelease, database := str "mysql",
           message :=
             str "Database \x27mysql\x27 has 1 enabled version(s) but no releases" }] := by
  constructor
  · intro d a hnd
    unfold findDiscrepancies specDesiredPass specActualPass
    dsimp only
    congr 1
    rw [List.flatMap_map]
    apply List.flatMap_congr
    intro p hp
    have hmem : p ∈ d.databases := (List.mem_filter.mp hp).1
    have hl : lookupBy p.1 d.databases = some p.2 := by
      obtain ⟨k, v⟩ := p
      exact lookupBy_eq_some_of_mem hnd hmem
    simp [hl]
  · decide

/-- Witness for C1 at Scenario A's inputs. -/
theorem findDiscrepancies_two_pass_witness :
    findDiscrepancies scenarioADesired scenarioAActual =
      specDesiredPass scenarioADesired scenarioAActual ++
        specActualPass scenarioADesired scenarioAActual :=
  findDiscrepancies_two_pass.1 scenarioADesired scenarioAActual (by decide)

/-- C8: the installer always works with the single canonical path
`<cacheRoot>/<database>/<version>/<platform>.<ext>`, where the extension is
`.zip` when the source URL ends in `.zip` and `.tar.gz` otherwise: both the
reused cached path (after extension adjustment) and the download destination
equal this path. -/
theorem installer_canonical_cache_path :
    ∀ (fs : Str → Option (List Nat)) (p : ProcessEnv) (cfg : InstallerConfig),
      (installerAcquireArchive fs p cfg).1 =
        nodeJoin (nodeJoin (nodeJoin (getCacheDir p) cfg.database) cfg.version)
          (cfg.platform ++
            (if strEndsWith cfg.downloadUrl (str ".zip") = true then str ".zip"
             else str ".tar.gz")) := by
  intro fs p cfg
  have hcanon :
      nodeJoin (nodeJoin (nodeJoin (getCacheDir p) cfg.database) cfg.version)
        (cfg.platform ++
          (if strEndsWith cfg.downloadUrl (str ".zip") = true then str ".zip"
           else str ".tar.gz")) = installerDownloadPath p cfg := by
    simp [installerDownloadPath, installerArchiveExt]
  rw [hcanon]
  unfold installerAcquireArchive getCachedArchive
  dsimp only
  by_cases hfs : (fs (getArchiveCachePath p
      { database := cfg.database, version := cfg.version,
        platform := cfg.platform })).isSome = true
  · rw [if_pos hfs]
    simp only [Option.map_some']
    rw [installer_adjusted_path p cfg]
    split_ifs with hfs2 <;> rfl
  · rw [if_neg hfs]
    rfl

/-- C5 counterexample: a concrete state in which a digest is known for the
artifact (the installer checksum is populated), the cached file's digest
differs from it under the digest oracle, and the installer still reuses the
cached archive without downloading — refuting the claim that a cached file
whose known digest does not match is never reused. -/
def c5Env : ProcessEnv :=
  { env := fun _ => none, platform := str "linux", home := str "/home/user" }

/-- C5 counterexample installer configuration (digest known, URL ends `.zip`). -/
def c5Cfg : InstallerConfig :=
  { database := str "mariadb", version := str "11.4.5",
    platform := str "win32-x64",
    downloadUrl := str "https://archive.mariadb.org/mariadb-11.4.5-winx64.zip",
    checksum := str "sha256:" ++ List.replicate 64 'a' }

/-- C5 counterexample file system: a stale archive is cached at both the
legacy `.tar.gz` path and the canonical `.zip` path. -/
def c5Fs : Str → Option (List Nat) := fun path =>
  if path = getArchiveCachePath c5Env
      { database := c5Cfg.database, version := c5Cfg.version,
        platform := c5Cfg.platform } ∨
     path = installerDownloadPath c5Env c5Cfg
  then some [0] else none

/-- C5 counterexample digest oracle: the cached bytes hash to something other
than the known digest. -/
def c5Digest : Str → List Nat → Str := fun _ _ => str "0123notexpected"

/-- C5: the claim fails on the code — at this concrete state the installer
reuses a cached file although a digest is known for the artifact and the
file's digest does not match it (no digest of a cached file is ever
computed). -/
theorem installer_cache_reuse_counterexample :
    installerDigestKnown c5Cfg = true ∧
    (installerAcquireArchive c5Fs c5Env c5Cfg).2 = false ∧
    (c5Fs (installerAcquireArchive c5Fs c5Env c5Cfg).1).map
        (c5Digest (str "sha256")) = some (str "0123notexpected") ∧
    str "0123notexpected" ≠ stripAlgorithmTag c5Cfg.checksum := by decide

/-- C5 (amended): a cache entry is treated as present by file existence alone —
the installer reuses the cached archive exactly when a file exists at the
legacy `.tar.gz` cache path and a file exists at the canonical
(extension-adjusted) path; no digest of a cached file is ever computed or
compared (digests are enforced only at download time). -/
theorem installer_cache_reuse_by_existence :
    ∀ (fs : Str → Option (List Nat)) (p : ProcessEnv) (cfg : InstallerConfig),
      ((installerAcquireArchive fs p cfg).2 = false ↔
        (fs (getArchiveCachePath p
            { database := cfg.database, version := cfg.version,
              platform := cfg.platform })).isSome = true ∧
        (fs (installerDownloadPath p cfg)).isSome = true) := by
  intro fs p cfg
  unfold installerAcquireArchive getCachedArchive
  dsimp only
  by_cases hfs : (fs (getArchiveCachePath p
      { database := cfg.database, version := cfg.version,
        platform := cfg.platform })).isSome = true
  · rw [if_pos hfs]
    simp only [Option.map_some']
    rw [installer_adjusted_path p cfg]
    by_cases hfs2 : (fs (installerDownloadPath p cfg)).isSome = true
    · rw [if_pos hfs2]
      simp [hfs, hfs2]
    · rw [if_neg hfs2]
      simp [hfs2]
  · rw [if_neg hfs]
    simp [hfs]

/-- C9 counterexample: `darwin-x64` is one of the five recognized platform
identifiers, yet platform detection on the host tuple (darwin, x64) does not
succeed — it throws the unsupported-platform error. -/
theorem detectPlatform_darwin_x64_counterexample :
    str "darwin-x64" ∈ PLATFORMS ∧
      (detectPlatform (str "darwin") (str "x64")).isOk = false := by decide

/-- C9 (amended): platform detection succeeds exactly for the four host tuples
(linux, x64), (linux, arm64), (darwin, arm64) and (win32, x64) — darwin-x64
is not among them — and raises the unsupported-platform error for every
other tuple; asset classification, by contrast, is gated by the five
identifiers of `PLATFORMS` (including darwin-x64), and `extractPlatform`
only ever classifies a filename into one of those five. -/
theorem detectPlatform_four_tuples :
    (∀ os arch : Str, (detectPlatform os arch).isOk = true ↔
        ((os = str "linux" ∧ arch = str "x64") ∨
         (os = str "linux" ∧ arch = str "arm64") ∨
         (os = str "darwin" ∧ arch = str "arm64") ∨
         (os = str "win32" ∧ arch = str "x64"))) ∧
    SUPPORTED_PLATFORMS =
      [str "linux-x64", str "linux-arm64", str "darwin-arm64", str "win32-x64"] ∧
    PLATFORMS = [str "linux-x64", str "linux-arm64", str "darwin-x64",
      str "darwin-arm64", str "win32-x64"] ∧
    (∀ f pl : Str, extractPlatform f = some pl → pl ∈ PLATFORMS) := by
  refine ⟨?_, rfl, rfl, ?_⟩
  · intro os arch
    unfold detectPlatform
    split_ifs with h1 h2 h3 h4 <;> simp [Except.isOk] <;> tauto
  · intro f pl h
    exact List.mem_of_find?_eq_some h

/-- Witness for C9 (amended) at a concrete filename. -/
theorem detectPlatform_four_tuples_witness :
    str "linux-x64" ∈ PLATFORMS :=
  detectPlatform_four_tuples.2.2.2 (str "server-linux-x64.tar.gz")
    (str "linux-x64") (by decide)

/-- C10: the algorithm tag of `expectedChecksum` is discarded and never
selects the hash function: the value compared is the segment after the first
`:`, two expected checksums differing only in their algorithm tag behave
identically, and verification compares that segment against the digest
computed with the separately supplied `checksumAlgorithm` option (`sha256`
when omitted). -/
theorem downloadFile_algorithm_tag_ignored :
    (∀ alg hex : Str, ':' ∉ alg → ':' ∉ hex →
        stripAlgorithmTag (alg ++ ':' :: hex) = hex) ∧
    (∀ (hash : Str → List Nat → Str) (url alg alg' hex : Str)
        (algoOpt : Option Str) (input : StreamInput),
        ':' ∉ alg → ':' ∉ alg' → ':' ∉ hex →
        downloadFile hash
            { url := url, expectedChecksum := some (alg ++ ':' :: hex),
              checksumAlgorithm := algoOpt } input =
          downloadFile hash
            { url := url, expectedChecksum := some (alg' ++ ':' :: hex),
              checksumAlgorithm := algoOpt } input) ∧
    (∀ (hash : Str → List Nat → Str) (url alg hex : Str)
        (algoOpt : Option Str) (input : StreamInput),
        ':' ∉ alg → ':' ∉ hex →
        input.responseOk = true → input.streamError = none →
        (downloadFile hash
            { url := url, expectedChecksum := some (alg ++ ':' :: hex),
              checksumAlgorithm := algoOpt } input).result =
          (if hash (algoOpt.getD (str "sha256")) input.chunks.flatten = hex then
            .ok { size := input.chunks.flatten.length,
                  checksum := algoOpt.getD (str "sha256") ++ ':' ::
                    hash (algoOpt.getD (str "sha256")) input.chunks.flatten }
          else
            .error (.checksumMismatch hex
              (hash (algoOpt.getD (str "sha256")) input.chunks.flatten)))) := by
  refine ⟨stripAlgorithmTag_tagged, ?_, ?_⟩
  · intro hash url alg alg' hex algoOpt input h1 h2 h3
    unfold downloadFile
    dsimp only
    rw [stripAlgorithmTag_tagged alg hex h1 h3,
      stripAlgorithmTag_tagged alg' hex h2 h3]
  · intro hash url alg hex algoOpt input h1 h2 hok herr
    unfold downloadFile
    dsimp only
    rw [stripAlgorithmTag_tagged alg hex h1 h2]
    by_cases hh : hash (algoOpt.getD (str "sha256")) input.chunks.flatten = hex <;>
      simp [hok, herr, hh]

/-- Witness for C10 at concrete inputs: the `sha512` tag is stripped, and two
differently-tagged expected checksums produce the same outcome. -/
theorem downloadFile_algorithm_tag_ignored_witness :
    stripAlgorithmTag (str "sha512" ++ ':' :: str "ab") = str "ab" ∧
      downloadFile (fun _ _ => str "ab")
          { url := str "u", expectedChecksum := some (str "sha512" ++ ':' :: str "ab"),
            checksumAlgorithm := none } { chunks := [[7]] } =
        downloadFile (fun _ _ => str "ab")
          { url := str "u", expectedChecksum := some (str "md5" ++ ':' :: str "ab"),
            checksumAlgorithm := none } { chunks := [[7]] } :=
  ⟨downloadFile_algorithm_tag_ignored.1 (str "sha512") (str "ab")
      (by decide) (by decide),
   downloadFile_algorithm_tag_ignored.2.1 (fun _ _ => str "ab") (str "u")
      (str "sha512") (str "md5") (str "ab") none { chunks := [[7]] }
      (by decide) (by decide) (by decide)⟩

/-- C2: the download pipeline leaves no partial or corrupt file.  A transport
error mid-stream deletes the partial file and propagates the error; a
checksum mismatch deletes the file and fails with an error carrying both the
expected and the computed digest; with a correct expected digest the call
succeeds leaving exactly the downloaded content at the destination, whose
digest matches the expected value. -/
theorem downloadFile_no_partial_file :
    ∀ (hash : Str → List Nat → Str) (opts : DownloadOptions)
      (input : StreamInput), input.responseOk = true →
      ((∀ e, input.streamError = some e →
          (downloadFile hash opts input).result = .error (.transport e) ∧
          (downloadFile hash opts input).fileAt = none) ∧
       (∀ ec, input.streamError = none → opts.expectedChecksum = some ec →
          (hash (opts.checksumAlgorithm.getD (str "sha256"))
              input.chunks.flatten ≠ stripAlgorithmTag ec →
            (downloadFile hash opts input).result =
              .error (.checksumMismatch (stripAlgorithmTag ec)
                (hash (opts.checksumAlgorithm.getD (str "sha256"))
                  input.chunks.flatten)) ∧
            (downloadFile hash opts input).fileAt = none) ∧
          (hash (opts.checksumAlgorithm.getD (str "sha256"))
              input.chunks.flatten = stripAlgorithmTag ec →
            (downloadFile hash opts input).fileAt = some input.chunks.flatten ∧
            (downloadFile hash opts input).result =
              .ok { size := input.chunks.flatten.length,
                    checksum := opts.checksumAlgorithm.getD (str "sha256") ++
                      ':' :: hash (opts.checksumAlgorithm.getD (str "sha256"))
                        input.chunks.flatten }))) := by
  intro hash opts input hok
  constructor
  · intro e he
    unfold downloadFile
    simp [hok, he]
  · intro ec herr hec
    constructor
    · intro hne
      unfold downloadFile
      simp [hok, herr, hec, hne]
    · intro heq
      unfold downloadFile
      simp [hok, herr, hec, heq]

/-- Witness for C2: a concrete transport error deletes the partial file, and a
concrete correct digest leaves the file. -/
theorem downloadFile_no_partial_file_witness :
    ((downloadFile (fun _ _ => str "d0")
        { url := str "u" } { chunks := [[1]], streamError := some (str "reset") }).fileAt
      = none) ∧
    ((downloadFile (fun _ _ => str "d0")
        { url := str "u", expectedChecksum := some (str "d0") }
        { chunks := [[1]] }).fileAt = some [1]) :=
  ⟨((downloadFile_no_partial_file (fun _ _ => str "d0") { url := str "u" }
      { chunks := [[1]], streamError := some (str "reset") } (by decide)).1
      (str "reset") (by decide)).2,
   (((downloadFile_no_partial_file (fun _ _ => str "d0")
      { url := str "u", expectedChecksum := some (str "d0") }
      { chunks := [[1]] } (by decide)).2 (str "d0") (by decide) (by decide)).2
      (by decide)).1⟩

/-- C4 counterexample: with present state files whose contents `JSON.parse`
rejects (modelled by parsers returning `none` on them), the detector run
raises a parse error instead of returning the empty list — refuting the
claim that malformed input yields an empty result and never an error. -/
theorem runFindDiscrepancies_malformed_counterexample :
    runFindDiscrepancies (fun _ => none) (fun _ => none)
      (some (str "not json")) (some (str "also not json")) = .error .parse := rfl

/-- C4 (amended): a missing state file (either one) yields the empty
discrepancy list without error, but malformed content in a present file
raises a parse error that propagates; when both files parse the run returns
`findDiscrepancies` of the parsed states. -/
theorem runFindDiscrepancies_missing_empty_malformed_raises :
    (∀ (pd : Str → Option DatabasesJson) (pr : Str → Option ReleasesJson)
        (rel : Option Str), runFindDiscrepancies pd pr none rel = .ok []) ∧
    (∀ (pd : Str → Option DatabasesJson) (pr : Str → Option ReleasesJson)
        (db : Option Str), runFindDiscrepancies pd pr db none = .ok []) ∧
    (∀ (pd : Str → Option DatabasesJson) (pr : Str → Option ReleasesJson)
        (s t : Str), pd s = none →
        runFindDiscrepancies pd pr (some s) (some t) = .error .parse) ∧
    (∀ (pd : Str → Option DatabasesJson) (pr : Str → Option ReleasesJson)
        (s t : Str) (d : DatabasesJson), pd s = some d → pr t = none →
        runFindDiscrepancies pd pr (some s) (some t) = .error .parse) ∧
    (∀ (pd : Str → Option DatabasesJson) (pr : Str → Option ReleasesJson)
        (s t : Str) (d : DatabasesJson) (r : ReleasesJson),
        pd s = some d → pr t = some r →
        runFindDiscrepancies pd pr (some s) (some t) =
          .ok (findDiscrepancies d r)) := by
  refine ⟨?_, ?_, ?_, ?_, ?_⟩
  · intro pd pr rel
    cases rel <;> rfl
  · intro pd pr db
    cases db <;> rfl
  · intro pd pr s t h
    simp [runFindDiscrepancies, h]
  · intro pd pr s t d h1 h2
    simp [runFindDiscrepancies, h1, h2]
  · intro pd pr s t d r h1 h2
    simp [runFindDiscrepancies, h1, h2]

/-- Witness for C4 (amended) at concrete inputs. -/
theorem runFindDiscrepancies_missing_empty_malformed_raises_witness :
    runFindDiscrepancies (fun _ => none) (fun _ => none)
        (some (str "x")) (some (str "y")) = .error .parse :=
  runFindDiscrepancies_missing_empty_malformed_raises.2.2.1
    (fun _ => none) (fun _ => none) (str "x") (str "y") rfl

theorem lookupKV_fold_digest_preserved (digestOf : Str → Option Str)
    (as : List GitHubAsset) (acc : List (Str × Str)) (k d : Str)
    (hacc : lookupKV k acc = some d) (hne : ∀ a ∈ as, a.name ≠ k) :
    lookupKV k (as.foldl (fun acc a =>
      match digestOf a.browser_download_url with
      | some sha256 => recInsert acc a.name sha256
      | none => acc) acc) = some d := by
  induction as generalizing acc with
  | nil => exact hacc
  | cons a rest ih =>
    simp only [List.foldl_cons]
    refine ih _ ?_ fun b hb => hne b (List.mem_cons_of_mem a hb)
    rcases hd : digestOf a.browser_download_url with _ | sha
    · exact hacc
    · rw [lookupKV_recInsert, if_neg (hne a (List.mem_cons_self a rest)), hacc]

theorem lookupKV_fold_digest_isSome (digestOf : Str → Option Str)
    (as : List GitHubAsset) (acc : List (Str × Str)) (k : Str)
    (hsucc : ∀ a ∈ as, (digestOf a.browser_download_url).isSome = true) :
    ((lookupKV k (as.foldl (fun acc a =>
        match digestOf a.browser_download_url with
        | some sha256 => recInsert acc a.name sha256
        | none => acc) acc)).isSome = true ↔
      (k ∈ as.map (·.name) ∨ (lookupKV k acc).isSome = true)) := by
  induction as generalizing acc with
  | nil => simp
  | cons a rest ih =>
    simp only [List.foldl_cons]
    rcases hd : digestOf a.browser_download_url with _ | sha
    · exact absurd (hsucc a (List.mem_cons_self a rest)) (by simp [hd])
    · rw [ih _ fun b hb => hsucc b (List.mem_cons_of_mem a hb)]
      rw [lookupKV_recInsert]
      by_cases hk : a.name = k
      · subst hk
        simp
      · have hk' : ¬ k = a.name := fun h => hk h.symm
        simp only [if_neg hk, List.map_cons, List.mem_cons, hk', false_or]

/-- Scenario C linux-x64 digest already present in the manifest. -/
def scenarioCD1 : Str := List.replicate 64 'a'

/-- Scenario C digest computed for the missing win32-x64 asset. -/
def scenarioCD2 : Str := List.replicate 64 'b'

/-- Scenario C release: two binary assets and the manifest asset. -/
def scenarioCRelease : GitHubRelease :=
  { tag_name := str "mysql-8.4.0", published_at := str "2024-01-01",
    assets := [
      { name := str "server-linux-x64.tar.gz",
        browser_download_url := str "https://rel/server-linux-x64.tar.gz",
        size := 10 },
      { name := str "server-win32-x64.zip",
        browser_download_url := str "https://rel/server-win32-x64.zip",
        size := 20 },
      { name := str "checksums.txt",
        browser_download_url := str "https://rel/checksums.txt", size := 1 }] }

/-- Scenario C existing manifest: only the linux-x64 entry. -/
def scenarioCExisting : List (Str × Str) :=
  [(str "server-linux-x64.tar.gz", scenarioCD1)]

/-- Scenario C digest oracle. -/
def scenarioCDigest : Str → Option Str := fun url =>
  if url = str "https://rel/server-win32-x64.zip" then some scenarioCD2 else none

set_option maxRecDepth 8192 in
/-- C3: checksum repair is strictly additive and idempotent — every entry of
the existing manifest keeps its digest byte-identically in the updated map;
when every missing digest computation succeeds, the added entries are
exactly the binary assets absent from the existing manifest; when nothing is
missing the repair publishes nothing (so repairing an already-complete
release any number of times publishes nothing, trivially byte-identical);
and on Scenario C's inputs the published manifest holds both binary entries
with the original linux-x64 digest unchanged. -/
theorem repair_additive_idempotent :
    (∀ (digestOf : Str → Option Str) (existing : List (Str × Str))
        (release : GitHubRelease) (f d : Str),
        lookupKV f existing = some d →
        lookupKV f (repairUpdatedChecksums digestOf existing release) = some d) ∧
    (∀ (digestOf : Str → Option Str) (existing : List (Str × Str))
        (release : GitHubRelease),
        (∀ a ∈ missingAssetsOf existing release,
          (digestOf a.browser_download_url).isSome = true) →
        ∀ f, lookupKV f existing = none →
          ((lookupKV f (repairUpdatedChecksums digestOf existing release)).isSome
              = true ↔
            f ∈ (missingAssetsOf existing release).map (·.name))) ∧
    (∀ (digestOf : Str → Option Str) (existing : List (Str × Str))
        (release : GitHubRelease),
        missingAssetsOf existing release = [] →
        repairRelease digestOf existing release = none) ∧
    repairRelease scenarioCDigest scenarioCExisting scenarioCRelease =
      some (scenarioCD1 ++ str "  server-linux-x64.tar.gz" ++ '\n' ::
        scenarioCD2 ++ str "  server-win32-x64.zip" ++ ['\n']) := by
  refine ⟨?_, ?_, ?_, ?_⟩
  · intro digestOf existing release f d hf
    unfold repairUpdatedChecksums
    refine lookupKV_fold_digest_preserved digestOf _ existing f d hf ?_
    intro a ha hne
    have := (List.mem_filter.mp ha).2
    rw [hne] at this
    rw [hf] at this
    simp at this
  · intro digestOf existing release hsucc f hf
    unfold repairUpdatedChecksums
    rw [lookupKV_fold_digest_isSome digestOf _ existing f hsucc]
    simp [hf]
  · intro digestOf existing release hmiss
    by_cases hb : binaryAssetsOf release = [] <;>
      simp [repairRelease, hb, hmiss]
  · decide

theorem lookupKV_mem {m : List (Str × Str)} {k v : Str}
    (h : lookupKV k m = some v) : (k, v) ∈ m := by
  induction m with
  | nil => cases h
  | cons hd tl ih =>
    obtain ⟨k', v'⟩ := hd
    by_cases hk : k' = k
    · subst hk
      rw [lookupKV, if_pos rfl] at h
      cases h
      exact List.mem_cons_self _ _
    · rw [lookupKV, if_neg hk] at h
      exact List.mem_cons_of_mem _ (ih h)

set_option maxRecDepth 8192 in
/-- Witness for C3 at Scenario C's inputs: the existing linux-x64 digest is
preserved verbatim by the repair update. -/
theorem repair_additive_idempotent_witness :
    lookupKV (str "server-linux-x64.tar.gz")
        (repairUpdatedChecksums scenarioCDigest scenarioCExisting
          scenarioCRelease) = some scenarioCD1 :=
  repair_additive_idempotent.1 scenarioCDigest scenarioCExisting
    scenarioCRelease (str "server-linux-x64.tar.gz") scenarioCD1 (by decide)

theorem uploadChecksumsContent_eq (m : List (Str × Str)) :
    uploadChecksumsContent m =
      joinNl (((sortStrs (m.map Prod.fst)).map
        fun f => (f, (lookupKV f m).getD [])).map
          fun p => p.2 ++ ' ' :: ' ' :: p.1) ++ ['\n'] := by
  rw [uploadChecksumsContent, List.map_map]
  rfl

theorem map_keys_lookup (m : List (Str × Str))
    (hnd : (m.map Prod.fst).Nodup) :
    ((m.map Prod.fst).map fun f => (f, (lookupKV f m).getD [])) = m := by
  induction m with
  | nil => rfl
  | cons hd tl ih =>
    obtain ⟨k, v⟩ := hd
    simp only [List.map_cons, List.nodup_cons] at hnd ⊢
    congr 1
    · rw [lookupKV, if_pos rfl]
      rfl
    · have hcong : ∀ f ∈ List.map Prod.fst tl,
          (f, (lookupKV f ((k, v) :: tl)).getD ([] : Str)) =
            (f, (lookupKV f tl).getD []) := by
        intro f hf
        have hskip : lookupKV f ((k, v) :: tl) = lookupKV f tl := by
          rw [lookupKV, if_neg]
          intro hk
          exact hnd.1 (hk ▸ hf)
        rw [hskip]
      rw [List.map_congr_left hcong, ih hnd.2]

/-- C7: the serialized manifest consists of exactly one line per entry (the
lines being a permutation of the entries' renderings), each line literally
`<digest>␠␠<filename>` with the digest 64 lowercase hex characters, lines
sorted by filename, a single trailing newline, and what follows the two
spaces of a line is the filename itself — no `*` binary-mode marker is
emitted. -/
theorem uploadChecksums_format :
    ∀ (m : List (Str × Str)), m ≠ [] → (m.map Prod.fst).Nodup →
      (∀ p ∈ m, is64HexLower p.2 = true) →
      ∃ ps : List (Str × Str),
        List.Perm ps m ∧
        uploadChecksumsContent m =
          joinNl (ps.map fun p => p.2 ++ ' ' :: ' ' :: p.1) ++ ['\n'] ∧
        ps.Pairwise (fun p q => strLe p.1 q.1 = true) ∧
        (∀ p ∈ ps, is64HexLower p.2 = true ∧
          (p.2 ++ ' ' :: ' ' :: p.1).drop 66 = p.1) := by
  intro m hne hnd hhex
  refine ⟨(sortStrs (m.map Prod.fst)).map fun f => (f, (lookupKV f m).getD []),
    ?_, ?_, ?_, ?_⟩
  · have h1 := (sortStrs_perm (m.map Prod.fst)).map
      fun f => (f, (lookupKV f m).getD [])
    rw [map_keys_lookup m hnd] at h1
    exact h1
  · exact uploadChecksumsContent_eq m
  · exact (sortStrs_pairwise (m.map Prod.fst)).map _ fun a b h => h
  · intro p hp
    obtain ⟨f, hf, rfl⟩ := List.mem_map.mp hp
    have hfm : f ∈ m.map Prod.fst :=
      ((sortStrs_perm (m.map Prod.fst)).mem_iff).mp hf
    obtain ⟨v, hv⟩ : ∃ v, lookupKV f m = some v := by
      rcases h : lookupKV f m with _ | v
      · exact absurd hfm ((lookupKV_eq_none_iff m f).mp h)
      · exact ⟨v, rfl⟩
    have hpm : (f, v) ∈ m := lookupKV_mem hv
    have h64 : is64HexLower v = true := hhex (f, v) hpm
    constructor
    · simpa [hv] using h64
    · have hlen : (((lookupKV f m).getD []) ++ [' ', ' ']).length = 66 := by
        have hv64 : v.length = 64 := by
          have h := h64
          simp only [is64HexLower, decide_eq_true_eq] at h
          exact h.1
        simp [hv, hv64]
      calc (((lookupKV f m).getD []) ++ ' ' :: ' ' :: f).drop 66
          = ((((lookupKV f m).getD []) ++ [' ', ' ']) ++ f).drop
              (((lookupKV f m).getD []) ++ [' ', ' ']).length := by
            rw [hlen]
            simp
        _ = f := List.drop_left _ _

set_option maxRecDepth 8192 in
/-- Witness for C7 at a concrete one-entry manifest. -/
theorem uploadChecksums_format_witness :
    ∃ ps : List (Str × Str),
      List.Perm ps scenarioCExisting ∧
      uploadChecksumsContent scenarioCExisting =
        joinNl (ps.map fun p => p.2 ++ ' ' :: ' ' :: p.1) ++ ['\n'] ∧
      ps.Pairwise (fun p q => strLe p.1 q.1 = true) ∧
      (∀ p ∈ ps, is64HexLower p.2 = true ∧
        (p.2 ++ ' ' :: ' ' :: p.1).drop 66 = p.1) :=
  uploadChecksums_format scenarioCExisting (by decide) (by decide) (by decide)

theorem splitNl_append_line (l rest : Str) (hnl : '\n' ∉ l) :
    splitNl (l ++ '\n' :: rest) = l :: splitNl rest := by
  induction l with
  | nil => simp [splitNl]
  | cons c cs ih =>
    have hc : ¬ c = '\n' := fun he => hnl (he ▸ List.mem_cons_self c cs)
    have hcs := ih fun hm => hnl (List.mem_cons_of_mem c hm)
    simp [splitNl, hc, hcs]

theorem splitNl_joinNl (l : Str) (ls : List Str)
    (hnl : ∀ x ∈ l :: ls, '\n' ∉ x) :
    splitNl (joinNl (l :: ls) ++ ['\n']) = (l :: ls) ++ [[]] := by
  induction ls generalizing l with
  | nil =>
    rw [joinNl]
    rw [splitNl_append_line l [] (hnl l (List.mem_cons_self l []))]
    rfl
  | cons l2 ls2 ih =>
    have hj : joinNl (l :: l2 :: ls2) = l ++ '\n' :: joinNl (l2 :: ls2) := rfl
    rw [hj, List.append_assoc, List.cons_append,
      splitNl_append_line l _ (hnl l (List.mem_cons_self l (l2 :: ls2))),
      ih l2 fun x hx => hnl x (List.mem_cons_of_mem l hx)]
    rfl

theorem matchWsThenRest_line (f : Str) (hne : f ≠ [])
    (hdot : f.all isDotChar = true) (hws : isJsWs (f.headD ' ') = false)
    (hstar : f.headD ' ' ≠ '*') :
    matchWsThenRest (' ' :: ' ' :: f) = some f := by
  obtain ⟨c, rest, rfl⟩ : ∃ c rest, f = c :: rest := by
    cases f with
    | nil => exact absurd rfl hne
    | cons c rest => exact ⟨c, rest, rfl⟩
  simp only [List.headD_cons] at hws hstar
  have h0 : matchWsThenRest (c :: rest) = none := by
    rw [matchWsThenRest, if_neg (by simp [hws])]
  have h1 : matchStarRest (c :: rest) = some (c :: rest) := by
    rw [matchStarRest, if_neg (by simp [hstar]), if_pos hdot]
  have hsp : isJsWs ' ' = true := by decide
  rw [matchWsThenRest, if_pos hsp, matchWsThenRest, if_pos hsp, h0, h1]

theorem matchManifestLine_line (f d : Str) (hd : is64HexLower d = true)
    (hne : f ≠ []) (hdot : f.all isDotChar = true)
    (hws : isJsWs (f.headD ' ') = false) (hstar : f.headD ' ' ≠ '*') :
    matchManifestLine (d ++ ' ' :: ' ' :: f) = some (f, d) := by
  simp only [is64HexLower, decide_eq_true_eq] at hd
  have htake : (d ++ ' ' :: ' ' :: f).take 64 = d := by
    rw [← hd.1]
    exact List.take_left d _
  have hdrop : (d ++ ' ' :: ' ' :: f).drop 64 = ' ' :: ' ' :: f := by
    rw [← hd.1]
    exact List.drop_left d _
  rw [matchManifestLine]
  rw [htake, hdrop, if_pos (by simp [hd.1, hd.2]),
    matchWsThenRest_line f hne hdot hws hstar]
  rfl

theorem line_no_newline (f d : Str) (hd : is64HexLower d = true)
    (hdot : f.all isDotChar = true) : '\n' ∉ d ++ ' ' :: ' ' :: f := by
  simp only [is64HexLower, decide_eq_true_eq] at hd
  intro hm
  rcases List.mem_append.mp hm with hm | hm
  · have := List.all_eq_true.mp hd.2 _ hm
    simp [isHexLowerChar] at this
  · rcases List.mem_cons.mp hm with hm | hm
    · cases hm
    · rcases List.mem_cons.mp hm with hm | hm
      · cases hm
      · have := List.all_eq_true.mp hdot _ hm
        simp [isDotChar] at this

theorem parseChecksums_fold_lines (ps : List (Str × Str))
    (acc : List (Str × Str))
    (hgood : ∀ p ∈ ps,
      matchManifestLine (p.2 ++ ' ' :: ' ' :: p.1) = some (p.1, p.2)) :
    ((ps.map fun p => p.2 ++ ' ' :: ' ' :: p.1).foldl
      (fun acc line =>
        match matchManifestLine line with
        | some (f, h) => recInsert acc f h
        | none => acc) acc) =
      ps.foldl (fun acc p => recInsert acc p.1 p.2) acc := by
  induction ps generalizing acc with
  | nil => rfl
  | cons p rest ih =>
    simp only [List.map_cons, List.foldl_cons,
      hgood p (List.mem_cons_self p rest)]
    exact ih _ fun q hq => hgood q (List.mem_cons_of_mem p hq)

set_option maxRecDepth 8192 in
/-- C6 counterexample: the one-entry digest mapping with filename `*x` (which
contains no newline) does not survive a serialize-then-parse round trip —
the parser treats the leading `*` as the binary-mode marker, so the parsed
mapping holds `x`, not `*x`. -/
theorem parse_uploadChecksums_roundtrip_counterexample :
    ('\n' ∉ str "*x") ∧
      lookupKV (str "*x") [(str "*x", List.replicate 64 'a')] =
        some (List.replicate 64 'a') ∧
      lookupKV (str "*x")
        (parseChecksums (uploadChecksumsContent
          [(str "*x", List.replicate 64 'a')])) = none ∧
      lookupKV (str "x")
        (parseChecksums (uploadChecksumsContent
          [(str "*x", List.replicate 64 'a')])) =
        some (List.replicate 64 'a') := by
  decide

theorem parseChecksums_lines (p0 : Str × Str) (ps0 : List (Str × Str))
    (hgood : ∀ p ∈ p0 :: ps0,
      matchManifestLine (p.2 ++ ' ' :: ' ' :: p.1) = some (p.1, p.2))
    (hnl : ∀ p ∈ p0 :: ps0, '\n' ∉ p.2 ++ ' ' :: ' ' :: p.1) :
    parseChecksums
        (joinNl ((p0 :: ps0).map fun p => p.2 ++ ' ' :: ' ' :: p.1) ++ ['\n']) =
      (p0 :: ps0).foldl (fun acc p => recInsert acc p.1 p.2) [] := by
  have hmc : ((p0 :: ps0).map fun p => p.2 ++ ' ' :: ' ' :: p.1) =
      (p0.2 ++ ' ' :: ' ' :: p0.1) ::
        (ps0.map fun p => p.2 ++ ' ' :: ' ' :: p.1) := rfl
  rw [parseChecksums, List.map_cons, splitNl_joinNl _ _ ?hnl2]
  case hnl2 =>
    intro x hx
    rcases List.mem_cons.mp hx with hx | hx
    · subst hx
      exact hnl p0 (List.mem_cons_self p0 ps0)
    · obtain ⟨p, hp, rfl⟩ := List.mem_map.mp hx
      exact hnl p (List.mem_cons_of_mem p0 hp)
  rw [List.foldl_append, ← hmc, parseChecksums_fold_lines _ _ hgood]
  rfl

/-- C6 (amended): serializing a digest mapping (64-lowercase-hex digests,
unique filenames) and parsing the result returns the original mapping,
provided each filename is non-empty, contains no line-terminator character,
and does not begin with a whitespace character or with `*`. -/
theorem parse_uploadChecksums_roundtrip :
    ∀ (m : List (Str × Str)), (m.map Prod.fst).Nodup →
      (∀ p ∈ m, is64HexLower p.2 = true) →
      (∀ p ∈ m, p.1 ≠ [] ∧ p.1.all isDotChar = true ∧
        isJsWs (p.1.headD ' ') = false ∧ p.1.headD ' ' ≠ '*') →
      ∀ k, lookupKV k (parseChecksums (uploadChecksumsContent m)) =
        lookupKV k m := by
  intro m hnd hhex hfn k
  have hmemv : ∀ f v, lookupKV f m = some v → (f, v) ∈ m := fun f v h =>
    lookupKV_mem h
  have hps : ∀ p ∈ ((sortStrs (m.map Prod.fst)).map
      fun f => (f, (lookupKV f m).getD [])),
      is64HexLower p.2 = true ∧ p.1 ≠ [] ∧ p.1.all isDotChar = true ∧
        isJsWs (p.1.headD ' ') = false ∧ p.1.headD ' ' ≠ '*' := by
    intro p hp
    obtain ⟨f, hf, rfl⟩ := List.mem_map.mp hp
    have hfm : f ∈ m.map Prod.fst :=
      ((sortStrs_perm (m.map Prod.fst)).mem_iff).mp hf
    obtain ⟨v, hv⟩ : ∃ v, lookupKV f m = some v := by
      rcases h : lookupKV f m with _ | v
      · exact absurd hfm ((lookupKV_eq_none_iff m f).mp h)
      · exact ⟨v, rfl⟩
    have hpm : (f, v) ∈ m := hmemv f v hv
    exact ⟨by simpa [hv] using hhex (f, v) hpm, (hfn (f, v) hpm).1,
      (hfn (f, v) hpm).2.1, (hfn (f, v) hpm).2.2.1, (hfn (f, v) hpm).2.2.2⟩
  rw [uploadChecksumsContent_eq m]
  rcases hsort : (sortStrs (m.map Prod.fst)).map
      fun f => (f, (lookupKV f m).getD []) with _ | ⟨p0, ps0⟩
  · have hmnil : m.map Prod.fst = [] := by
      have := (sortStrs_perm (m.map Prod.fst)).length_eq
      rcases hs : sortStrs (m.map Prod.fst) with _ | _
      · rw [hs] at this
        exact List.eq_nil_of_length_eq_zero this.symm
      · rw [hs] at hsort
        cases hsort
    have : m = [] := List.eq_nil_of_length_eq_zero (by
      simpa using congrArg List.length hmnil)
    subst this
    rfl
  · rw [parseChecksums_lines p0 ps0 ?good ?nl]
    case good =>
      intro p hp
      have hpp := hps p (by rw [hsort]; exact hp)
      exact matchManifestLine_line p.1 p.2 hpp.1 hpp.2.1 hpp.2.2.1
        hpp.2.2.2.1 hpp.2.2.2.2
    case nl =>
      intro p hp
      have hpp := hps p (by rw [hsort]; exact hp)
      exact line_no_newline p.1 p.2 hpp.1 hpp.2.2.1
    have hndps : ((p0 :: ps0).map Prod.fst).Nodup := by
      rw [← hsort]
      have hmap : ((sortStrs (m.map Prod.fst)).map
          (fun f => (f, (lookupKV f m).getD []))).map Prod.fst =
          sortStrs (m.map Prod.fst) := by
        rw [List.map_map]
        exact (List.map_congr_left fun a _ => rfl).trans (List.map_id _)
      rw [hmap]
      exact ((sortStrs_perm (m.map Prod.fst)).nodup_iff).mpr hnd
    rw [lookupKV_foldl_recInsert (p0 :: ps0) hndps [] k]
    have hpsm : lookupKV k (p0 :: ps0) = lookupKV k m := by
      rw [← hsort, lookupKV_map_of_mem]
      by_cases hk : k ∈ sortStrs (m.map Prod.fst)
      · rw [if_pos hk]
        have hkm : k ∈ m.map Prod.fst :=
          ((sortStrs_perm (m.map Prod.fst)).mem_iff).mp hk
        obtain ⟨v, hv⟩ : ∃ v, lookupKV k m = some v := by
          rcases h : lookupKV k m with _ | v
          · exact absurd hkm ((lookupKV_eq_none_iff m k).mp h)
          · exact ⟨v, rfl⟩
        rw [hv]
        simp [hv]
      · rw [if_neg hk]
        have hkm : k ∉ m.map Prod.fst := fun h =>
          hk (((sortStrs_perm (m.map Prod.fst)).mem_iff).mpr h)
        exact ((lookupKV_eq_none_iff m k).mpr hkm).symm
    rw [← hpsm]
    rcases hfin : lookupKV k (p0 :: ps0) with _ | v
    · rfl
    · rfl

set_option maxRecDepth 8192 in
/-- Witness for C6 (amended) at a concrete one-entry mapping. -/
theorem parse_uploadChecksums_roundtrip_witness :
    lookupKV (str "a.tar.gz")
        (parseChecksums (uploadChecksumsContent
          [(str "a.tar.gz", List.replicate 64 'c')])) =
      lookupKV (str "a.tar.gz") [(str "a.tar.gz", List.replicate 64 'c')] :=
  parse_uploadChecksums_roundtrip [(str "a.tar.gz", List.replicate 64 'c')]
    (by decide) (by decide) (by decide) (str "a.tar.gz")

end HostDb
